import Mathlib

/-!
# Verification of the jolly-donny offline-storage core

A shallow embedding of the query/collection abstraction layer of the
jolly-donny repository, together with proofs and refutations of the
frozen claims about it.

Embedded components (from `src/src/storage/...` and the entity layer):

* `QueryableArray` — the LINQ-style sequence type
  (`utils/QueryableArray.ts`).  JavaScript `Array.prototype.slice`
  semantics (including negative-index behaviour) are modelled exactly;
  the in-place mutation performed by `Array.prototype.sort` inside
  `orderBy`/`orderByDescending` is modelled by returning the receiver's
  state after the call alongside the returned sequence.
* `PersistedEntity.toJSON` / `PersistedEntity.fromJSON` — the entity
  serialization lifecycle (`entity/PersistedEntity.ts`).  A JavaScript
  object is modelled as an ordered association list of own enumerable
  properties; a property value is `Option α`, `none` standing for
  `undefined`.
* `LocalStorageProvider` — the key-value backend
  (`providers/LocalStorageProvider.ts`), with its `models : Map` state.
* `SQLiteSchemeProvider.update` — the schema-based backend's upsert
  (`providers/IndexDBProvider.ts`, `ensureTable` + `INSERT OR REPLACE`),
  modelled at the level of a table registry keyed by label.
* `OfflineStorage` — the orchestrator (`OfflineStorage.ts`): `insert`,
  `update` and `all`, with the change-event emission made explicit as a
  returned list of events and the provider kept abstract where the
  source delegates to `this.provider`.
-/

/-! ## QueryableArray -/

namespace QueryableArray

/-- JavaScript `Array.prototype.slice(start, end)` on a list:
a negative index counts from the end of the array
(`max (len + i) 0`), a non-negative one is clamped to the length
(`min i len`); the result is the elements from the resolved start
(inclusive) to the resolved end (exclusive). `QueryableArray.skip` and
`QueryableArray.take` are direct calls of `slice` in the source. -/
def jsSlice {α : Type} (l : List α) (start : Int) (stop : Option Int) : List α :=
  let len : Int := l.length
  let s : Int := if start < 0 then max (len + start) 0 else min start len
  let e : Int :=
    match stop with
    | none => len
    | some e0 => if e0 < 0 then max (len + e0) 0 else min e0 len
  (l.drop s.toNat).take (e - s).toNat

/-- `skip(count)` from `QueryableArray.ts`: `this.slice(count)`. -/
def skip {α : Type} (l : List α) (count : Int) : List α :=
  jsSlice l count none

/-- `take(count)` from `QueryableArray.ts`: `this.slice(0, count)`. -/
def take {α : Type} (l : List α) (count : Int) : List α :=
  jsSlice l 0 (some count)

/-- `single(predicate)` from `QueryableArray.ts`: filter by the
predicate, throw unless exactly one element remains, otherwise return
`items[0]`.  The thrown exception is modelled as `Except.error` with
the source's message. -/
def single {α : Type} (l : List α) (p : α → Bool) : Except String α :=
  let items := l.filter p
  if h : items.length = 1 then
    Except.ok (items.get ⟨0, by omega⟩)
  else
    Except.error "Sequence contains more than one matching element"

/-- `singleOrDefault(predicate)` from `QueryableArray.ts`:
`items.length === 1 ? items[0] : undefined`. -/
def singleOrDefault {α : Type} (l : List α) (p : α → Bool) : Option α :=
  let items := l.filter p
  if items.length = 1 then items.head? else none

/-- `where(predicate)`: `this.filter(predicate)` wrapped in a new
sequence.  The pair is (receiver state after the call, returned
sequence); `filter` does not mutate the receiver. -/
def whereFx {α : Type} (s : List α) (p : α → Bool) : List α × List α :=
  (s, s.filter p)

/-- `select(selector)`: `this.map(selector)`; non-mutating. -/
def selectFx {α β : Type} (s : List α) (f : α → β) : List α × List β :=
  (s, s.map f)

/-- `skip(count)` as a receiver-effect pair; `slice` is non-mutating. -/
def skipFx {α : Type} (s : List α) (n : Int) : List α × List α :=
  (s, skip s n)

/-- `take(count)` as a receiver-effect pair; `slice` is non-mutating. -/
def takeFx {α : Type} (s : List α) (n : Int) : List α × List α :=
  (s, take s n)

/-- `orderBy(keySelector)` from `QueryableArray.ts`:
`new QueryableArray(...this.sort(comparator))` where the comparator
returns -1/1/0 by comparing selected keys.  `Array.prototype.sort`
mutates the receiver in place and is required to be stable
(ES2019), which a merge sort with `key a ≤ key b` realizes exactly;
the first component is the receiver's state after the call, the second
the (copied) returned sequence. -/
def orderByFx {α K : Type} [LinearOrder K] (s : List α) (key : α → K) :
    List α × List α :=
  let sorted := s.mergeSort (fun a b => decide (key a ≤ key b))
  (sorted, sorted)

/-- `orderByDescending(keySelector)`: same as `orderBy` with the
comparator reversed (`-1` when the first key is greater). -/
def orderByDescendingFx {α K : Type} [LinearOrder K] (s : List α) (key : α → K) :
    List α × List α :=
  let sorted := s.mergeSort (fun a b => decide (key b ≤ key a))
  (sorted, sorted)

end QueryableArray

/-! ## Entity layer: objects, formatters, toJSON / fromJSON -/

/-- A field formatter (`IFormatter`): paired `format`/`parse`
transforms.  Values are `Option α` because a JavaScript function can
receive and produce `undefined` (`none`). -/
structure Fmt (α : Type) where
  format : Option α → Option α
  parse : Option α → Option α

/-- A JavaScript object: its ordered list of own enumerable properties.
Keys are unique in a real object; a value of `none` is a property that
is present but holds `undefined`. -/
abbrev Obj (α : Type) := List (String × Option α)

/-- `hasOwnProperty(k)`. -/
def hasOwn {α : Type} (o : Obj α) (k : String) : Bool :=
  o.any (fun p => p.1 == k)

/-- Whether `k` is an own property, and if so its value:
`some v` when present (with `v = none` for `undefined`), `none` when
the key is absent. -/
def getProp {α : Type} (o : Obj α) (k : String) : Option (Option α) :=
  (o.find? (fun p => p.1 == k)).map Prod.snd

/-- Reading `o[k]` in JavaScript: the value when the property exists,
`undefined` (`none`) otherwise. -/
def getVal {α : Type} (o : Obj α) (k : String) : Option α :=
  (getProp o k).getD none

/-- Assigning `o[k] = v` to an existing own property: the entry keeps
its position and gets the new value.  (In the embedded code every
assignment is guarded by `hasOwnProperty`, so only the replace case
arises.) -/
def setProp {α : Type} (o : Obj α) (k : String) (v : Option α) : Obj α :=
  o.map (fun p => if p.1 == k then (k, v) else p)

/-- Lookup in the entity definition's formatter table
(`entityDefinition.formatters[k]`); the table is the association list
accumulated by `PersistedEntityBuilder.addFormatter`. -/
def lookupFmt {α : Type} (fmts : List (String × Fmt α)) (k : String) : Option (Fmt α) :=
  (fmts.find? (fun p => p.1 == k)).map Prod.snd

namespace PersistedEntity

/-- `PersistedEntity.format(key, value)`: the registered formatter's
`format` when one exists, otherwise `DefaultFormatter.format`, which
returns the value unchanged. -/
def format {α : Type} (fmts : List (String × Fmt α)) (k : String) (v : Option α) : Option α :=
  match lookupFmt fmts k with
  | some f => f.format v
  | none => v

/-- `PersistedEntity.parse(key, value)`: the registered formatter's
`parse` when one exists, otherwise `DefaultFormatter.parse`, which
returns the value unchanged. -/
def parse {α : Type} (fmts : List (String × Fmt α)) (k : String) (v : Option α) : Option α :=
  match lookupFmt fmts k with
  | some f => f.parse v
  | none => v

/-- `PersistedEntity.toJSON()`: start from a shallow copy of `this`
(`{ ...this }`), then for every key of the formatter table that is an
own property of `this`, overwrite the copy's value with the formatted
one. -/
def toJSON {α : Type} (fmts : List (String × Fmt α)) (self : Obj α) : Obj α :=
  fmts.foldl
    (fun json kf =>
      if hasOwn self kf.1 then setProp json kf.1 (format fmts kf.1 (getVal self kf.1))
      else json)
    self

/-- The body of the `fromJSON` loop for one input entry `kv`: when the
key is an own property of the entity being populated, assign
`parse(key, json[key])` if a formatter is registered for the key,
otherwise assign `json[key]` only when it is not `undefined`. -/
def fromJSONStep {α : Type} (fmts : List (String × Fmt α)) (acc : Obj α)
    (kv : String × Option α) : Obj α :=
  if hasOwn acc kv.1 then
    if (lookupFmt fmts kv.1).isSome then setProp acc kv.1 (parse fmts kv.1 kv.2)
    else
      match kv.2 with
      | some v => setProp acc kv.1 (some v)
      | none => acc
  else acc

/-- `PersistedEntity.fromJSON(json)`: iterate over the keys of the
input object in order, running `fromJSONStep` for each entry. -/
def fromJSON {α : Type} (fmts : List (String × Fmt α)) (self json : Obj α) : Obj α :=
  json.foldl (fromJSONStep fmts) self

end PersistedEntity

/-- An identity formatter on `Nat` fields (both directions return the
value unchanged), used to instantiate refutations. -/
def natIdFmt : Fmt Nat :=
  { format := fun v => v, parse := fun v => v }

/-! ## LocalStorageProvider and SQLiteSchemeProvider -/

/-- A persisted entity at the provider level (`PersistedEntityBase`):
`id`, timestamps, and the application payload. -/
structure PEntity (α : Type) where
  id : String
  created : Nat
  lastModified : Nat
  payload : α
deriving DecidableEq, Repr

/-- The `models : Map<string, any>` state of `LocalStorageProvider`
(and the table registry of the schema provider): label to the
collection stored under it, in insertion order. -/
abbrev LSModels (α : Type) := List (String × List (PEntity α))

/-- `Map.get(label)`. -/
def mapGet {α : Type} (m : LSModels α) (label : String) : Option (List (PEntity α)) :=
  (m.find? (fun p => p.1 == label)).map Prod.snd

/-- `Map.set(label, coll)`: replace an existing entry in place,
otherwise append. -/
def mapSet {α : Type} : LSModels α → String → List (PEntity α) → LSModels α
  | [], label, coll => [(label, coll)]
  | p :: rest, label, coll =>
    if p.1 == label then (label, coll) :: rest else p :: mapSet rest label coll

namespace LocalStorageProvider

/-- The collection mutation inside `LocalStorageProvider.update`:
`findIndex` the entity with the item's `id`; when found, set
`item.lastModified = Date.now()` and overwrite that slot; when not
found, `push(item)` (without refreshing `lastModified`). -/
def updateColl {α : Type} (item : PEntity α) (now : Nat) :
    List (PEntity α) → List (PEntity α)
  | [] => [item]
  | e :: rest =>
    if e.id == item.id then { item with lastModified := now } :: rest
    else e :: updateColl item now rest

/-- `LocalStorageProvider.update(label, item)`: look the label up in
`models`; when a model exists, upsert into its collection; when none
exists, the guard `if (model)` makes the call store nothing (only
`save()` runs, persisting the unchanged map). -/
def update {α : Type} (m : LSModels α) (label : String) (item : PEntity α)
    (now : Nat) : LSModels α :=
  match mapGet m label with
  | some coll => mapSet m label (updateColl item now coll)
  | none => m

/-- `LocalStorageProvider.findById(label, uuid)`:
`model.collection.find(pre => pre.id === uuid)`, `undefined` when the
label has no model. -/
def findById {α : Type} (m : LSModels α) (label : String) (uuid : String) :
    Option (PEntity α) :=
  match mapGet m label with
  | some coll => coll.find? (fun pre => pre.id == uuid)
  | none => none

/-- `LocalStorageProvider.addCollection(label, model)`:
`models.set(label, model)`. -/
def addCollection {α : Type} (m : LSModels α) (label : String)
    (coll : List (PEntity α)) : LSModels α :=
  mapSet m label coll

end LocalStorageProvider

/-- The number of entities stored under a given id in a collection. -/
def countId {α : Type} (coll : List (PEntity α)) (x : String) : Nat :=
  (coll.filter (fun e => e.id == x)).length

namespace SQLiteSchemeProvider

/-- `INSERT OR REPLACE` keyed by the `id` primary key: replace the row
with the same id, otherwise insert. -/
def insertOrReplace {α : Type} (item : PEntity α) :
    List (PEntity α) → List (PEntity α)
  | [] => [item]
  | e :: rest =>
    if e.id == item.id then item :: rest else e :: insertOrReplace item rest

/-- `SQLLiteSchemeProvider.update(label, item)` from
`IndexDBProvider.ts`: `ensureTable` runs `CREATE TABLE IF NOT EXISTS`
(so a missing table becomes an empty one), then the row is written
with `INSERT OR REPLACE`. -/
def update {α : Type} (tables : LSModels α) (label : String)
    (item : PEntity α) : LSModels α :=
  let coll := (mapGet tables label).getD []
  mapSet tables label (insertOrReplace item coll)

/-- `SQLLiteSchemeProvider.findById(label, id)`:
`SELECT * FROM label WHERE id = ?`, `undefined` when nothing matches. -/
def findById {α : Type} (tables : LSModels α) (label : String) (uuid : String) :
    Option (PEntity α) :=
  match mapGet tables label with
  | some coll => coll.find? (fun e => e.id == uuid)
  | none => none

end SQLiteSchemeProvider

/-! ## Orchestrator (OfflineStorage) -/

/-- The `origin` discriminant of a change event. -/
inductive Origin : Type
  | insert
  | update
  | delete
  | save
deriving DecidableEq, Repr

/-- A change event `{label, origin, item?}` as delivered to the
single-slot `onChange` listener. -/
structure ChangeEvent (ι : Type) where
  label : String
  origin : Origin
  item : Option ι
deriving DecidableEq, Repr

namespace OfflineStorage

/-- `OfflineStorage.insert(label, item, silent?)`: delegate to
`provider.update`, then invoke `onChange` with an `insert` event
unless the listener is unassigned or `silent` is set, and return the
item.  The provider is kept abstract as its `update` state transformer
`pupdate`; the result is (provider state after, events delivered to
the listener during the call, returned item). -/
def insert {σ ι : Type} (pupdate : σ → String → ι → σ) (hasListener : Bool)
    (st : σ) (label : String) (item : ι) (silent : Bool) :
    σ × List (ChangeEvent ι) × ι :=
  (pupdate st label item,
   if hasListener && !silent then
     [{ label := label, origin := Origin.insert, item := some item }]
   else [],
   item)

/-- `OfflineStorage.update(label, item)`: delegate to
`provider.update`, then invoke `onChange` with an `update` event
whenever the listener is assigned. -/
def update {σ ι : Type} (pupdate : σ → String → ι → σ) (hasListener : Bool)
    (st : σ) (label : String) (item : ι) : σ × List (ChangeEvent ι) :=
  (pupdate st label item,
   if hasListener then
     [{ label := label, origin := Origin.update, item := some item }]
   else [])

/-- `OfflineStorage.all(label)`: await `provider.all(label)` and map
each raw item through `parseItem`, dropping items whose parse result
is null; the whole body is wrapped in `try/catch`, and the catch
branch logs the error and resolves with an empty `QueryableArray`.
The provider call is abstracted as its delivered result `pall`
(`Except.error` for a rejected promise), and `parseItem` as a function
to `Option` (`none` for a null parse result). -/
def all {ε ι : Type} (pall : Except ε (List ι)) (parseItem : ι → Option ι) :
    Except ε (List ι) :=
  match pall with
  | Except.ok items => Except.ok ((items.map parseItem).reduceOption)
  | Except.error _ => Except.ok []

end OfflineStorage

/-! ## Helper lemmas: the object model -/

theorem hasOwn_cons {α : Type} (p : String × Option α) (o : Obj α) (k : String) :
    hasOwn (p :: o) k = (p.1 == k || hasOwn o k) := by
  simp [hasOwn]

theorem getProp_cons {α : Type} (k' : String) (v : Option α) (o : Obj α) (k : String) :
    getProp ((k', v) :: o) k = if (k' == k) then some v else getProp o k := by
  cases h : (k' == k) <;> simp [getProp, List.find?_cons, h]

theorem getProp_eq_none_of_not_own {α : Type} (o : Obj α) (k : String)
    (h : hasOwn o k = false) : getProp o k = none := by
  induction o with
  | nil => rfl
  | cons p rest ih =>
    rw [hasOwn_cons] at h
    simp only [Bool.or_eq_false_iff] at h
    obtain ⟨p1, p2⟩ := p
    rw [getProp_cons, if_neg (by simp [h.1]), ih h.2]

theorem setProp_cons {α : Type} (k' : String) (v' : Option α) (o : Obj α)
    (k : String) (v : Option α) :
    setProp ((k', v') :: o) k v
      = (if k' == k then (k, v) else (k', v')) :: setProp o k v := by
  simp [setProp]

theorem hasOwn_setProp {α : Type} (o : Obj α) (k k' : String) (v : Option α) :
    hasOwn (setProp o k v) k' = hasOwn o k' := by
  induction o with
  | nil => rfl
  | cons p rest ih =>
    obtain ⟨p1, p2⟩ := p
    rw [setProp_cons]
    cases hp : (p1 == k)
    · rw [if_neg (by simp [hp]), hasOwn_cons, hasOwn_cons, ih]
    · have hpk : p1 = k := by simpa using hp
      rw [if_pos (by simp [hp]), hasOwn_cons, hasOwn_cons, ih, hpk]

theorem getProp_setProp_ne {α : Type} (o : Obj α) (k k' : String) (v : Option α)
    (h : k' ≠ k) : getProp (setProp o k v) k' = getProp o k' := by
  induction o with
  | nil => rfl
  | cons p rest ih =>
    obtain ⟨p1, p2⟩ := p
    rw [setProp_cons]
    cases hp : (p1 == k)
    · rw [if_neg (by simp [hp]), getProp_cons, getProp_cons, ih]
    · have hpk : p1 = k := by simpa using hp
      rw [if_pos (by simp [hp]), getProp_cons, getProp_cons, ih]
      have h1 : (k == k') = false := by
        simpa using fun hh => h hh.symm
      have h2 : (p1 == k') = false := by
        subst hpk
        exact h1
      rw [h1, h2]
      simp

theorem getProp_setProp_self {α : Type} (o : Obj α) (k : String) (v : Option α)
    (h : hasOwn o k = true) : getProp (setProp o k v) k = some v := by
  induction o with
  | nil => simp [hasOwn] at h
  | cons p rest ih =>
    rw [hasOwn_cons] at h
    obtain ⟨p1, p2⟩ := p
    rw [setProp_cons]
    cases hp : (p1 == k)
    · rw [if_neg (by simp [hp]), getProp_cons, if_neg (by simp [hp])]
      refine ih ?_
      simpa [hp] using h
    · rw [if_pos (by simp [hp]), getProp_cons, if_pos (by simp)]

/-! ## Helper lemmas: fromJSON -/

theorem fromJSON_nil {α : Type} (fmts : List (String × Fmt α)) (self : Obj α) :
    PersistedEntity.fromJSON fmts self [] = self := rfl

theorem fromJSON_cons {α : Type} (fmts : List (String × Fmt α)) (self : Obj α)
    (kv : String × Option α) (rest : Obj α) :
    PersistedEntity.fromJSON fmts self (kv :: rest)
      = PersistedEntity.fromJSON fmts (PersistedEntity.fromJSONStep fmts self kv) rest := rfl

theorem hasOwn_fromJSONStep {α : Type} (fmts : List (String × Fmt α)) (acc : Obj α)
    (kv : String × Option α) (k : String) :
    hasOwn (PersistedEntity.fromJSONStep fmts acc kv) k = hasOwn acc k := by
  unfold PersistedEntity.fromJSONStep
  split
  · split
    · rw [hasOwn_setProp]
    · split
      · rw [hasOwn_setProp]
      · rfl
  · rfl

theorem getVal_fromJSONStep_ne {α : Type} (fmts : List (String × Fmt α)) (acc : Obj α)
    (kv : String × Option α) (k : String) (h : kv.1 ≠ k) :
    getVal (PersistedEntity.fromJSONStep fmts acc kv) k = getVal acc k := by
  unfold PersistedEntity.fromJSONStep
  split
  · split
    · unfold getVal
      rw [getProp_setProp_ne _ _ _ _ (Ne.symm h)]
    · split
      · unfold getVal
        rw [getProp_setProp_ne _ _ _ _ (Ne.symm h)]
      · rfl
  · rfl

theorem getVal_fromJSON_not_mem {α : Type} (fmts : List (String × Fmt α)) (json : Obj α) :
    ∀ (self : Obj α) (k : String), hasOwn json k = false →
      getVal (PersistedEntity.fromJSON fmts self json) k = getVal self k := by
  induction json with
  | nil => intro self k _; rfl
  | cons kv rest ih =>
    intro self k h
    rw [hasOwn_cons, Bool.or_eq_false_iff] at h
    have hne : kv.1 ≠ k := by simpa using h.1
    rw [fromJSON_cons, ih _ k h.2, getVal_fromJSONStep_ne fmts self kv k hne]

theorem hasOwn_rest_of_nodup {α : Type} (k1 : String) (rest : Obj α)
    (h : k1 ∉ rest.map Prod.fst) : hasOwn rest k1 = false := by
  simp only [hasOwn, List.any_eq_false]
  intro x hx
  simp only [beq_iff_eq]
  intro heq
  exact h (heq ▸ List.mem_map_of_mem Prod.fst hx)

theorem getVal_fromJSON_of_getProp {α : Type} (fmts : List (String × Fmt α)) (json : Obj α) :
    ∀ (self : Obj α) (k : String) (v : Option α),
      (json.map Prod.fst).Nodup → getProp json k = some v → hasOwn self k = true →
      getVal (PersistedEntity.fromJSON fmts self json) k =
        (match lookupFmt fmts k with
         | some f => f.parse v
         | none =>
           match v with
           | some a => some a
           | none => getVal self k) := by
  induction json with
  | nil =>
    intro self k v _ hv _
    simp [getProp] at hv
  | cons kv rest ih =>
    intro self k v hnd hv hown
    obtain ⟨k1, v1⟩ := kv
    rw [getProp_cons] at hv
    by_cases hk : (k1 == k) = true
    · rw [if_pos hk] at hv
      injection hv with hv
      subst hv
      have hk' : k1 = k := by simpa using hk
      subst hk'
      have hnotmem : k1 ∉ rest.map Prod.fst := (List.nodup_cons.mp hnd).1
      have hrest : hasOwn rest k1 = false := hasOwn_rest_of_nodup k1 rest hnotmem
      rw [fromJSON_cons, getVal_fromJSON_not_mem fmts rest _ _ hrest]
      unfold PersistedEntity.fromJSONStep
      simp only [hown, if_pos]
      cases hf : lookupFmt fmts k1 with
      | some f =>
        simp only [hf, Option.isSome_some, if_pos]
        unfold getVal
        rw [getProp_setProp_self _ _ _ hown]
        simp [PersistedEntity.parse, hf]
      | none =>
        simp only [hf]
        rw [if_neg (by simp)]
        cases v1 with
        | some a =>
          unfold getVal
          rw [getProp_setProp_self _ _ _ hown]
          simp
        | none => rfl
    · rw [if_neg hk] at hv
      have hne : k1 ≠ k := by simpa using hk
      rw [fromJSON_cons,
        ih _ k v (List.nodup_cons.mp hnd).2 hv
          (by rw [hasOwn_fromJSONStep]; exact hown)]
      cases hf : lookupFmt fmts k with
      | some f => simp
      | none =>
        cases v with
        | some a => simp
        | none =>
          simp only []
          rw [getVal_fromJSONStep_ne fmts self _ k hne]

/-! ## Helper lemmas: LocalStorageProvider state -/

theorem mapGet_mapSet_self {α : Type} (m : LSModels α) (label : String)
    (coll : List (PEntity α)) : mapGet (mapSet m label coll) label = some coll := by
  induction m with
  | nil => simp [mapSet, mapGet]
  | cons p rest ih =>
    unfold mapSet
    cases hp : (p.1 == label)
    · rw [if_neg (by simp [hp])]
      unfold mapGet
      rw [List.find?_cons_of_neg _ (by simpa using hp)]
      exact ih
    · rw [if_pos (by simp [hp])]
      unfold mapGet
      rw [List.find?_cons_of_pos _ (by simp)]
      rfl

theorem find?_updateColl {α : Type} (item : PEntity α) (now : Nat)
    (coll : List (PEntity α)) :
    (LocalStorageProvider.updateColl item now coll).find? (fun e => e.id == item.id)
      = some (if coll.any (fun e => e.id == item.id) then
                { item with lastModified := now } else item) := by
  induction coll with
  | nil =>
    simp [LocalStorageProvider.updateColl, List.find?_cons_of_pos]
  | cons e rest ih =>
    unfold LocalStorageProvider.updateColl
    cases he : (e.id == item.id)
    · rw [if_neg (by simp [he]), List.find?_cons_of_neg _ (by simp [he]), ih,
        List.any_cons]
      simp [he]
    · rw [if_pos (by simp [he]), List.find?_cons_of_pos _ (by simp), List.any_cons]
      simp [he]

theorem any_updateColl {α : Type} (item : PEntity α) (now : Nat)
    (coll : List (PEntity α)) :
    (LocalStorageProvider.updateColl item now coll).any (fun e => e.id == item.id)
      = true := by
  induction coll with
  | nil => simp [LocalStorageProvider.updateColl]
  | cons e rest ih =>
    unfold LocalStorageProvider.updateColl
    cases he : (e.id == item.id)
    · rw [if_neg (by simp [he]), List.any_cons, ih]
      simp
    · rw [if_pos (by simp [he]), List.any_cons]
      simp

theorem filter_updateColl {α : Type} (item : PEntity α) (now : Nat)
    (coll : List (PEntity α)) (h : countId coll item.id ≤ 1) :
    (LocalStorageProvider.updateColl item now coll).filter (fun e => e.id == item.id)
      = if coll.any (fun e => e.id == item.id) then
          [{ item with lastModified := now }] else [item] := by
  induction coll with
  | nil => simp [LocalStorageProvider.updateColl]
  | cons e rest ih =>
    unfold LocalStorageProvider.updateColl
    cases he : (e.id == item.id)
    · rw [if_neg (by simp [he]), List.filter_cons_of_neg (by simp [he]),
        ih (by simpa [countId, List.filter_cons_of_neg, he] using h), List.any_cons]
      simp [he]
    · have hrest : countId rest item.id = 0 := by
        unfold countId at h ⊢
        rw [List.filter_cons_of_pos (by simp [he])] at h
        simpa using Nat.le_of_succ_le_succ h
      have hrestf : rest.filter (fun e => e.id == item.id) = [] := by
        unfold countId at hrest
        exact List.length_eq_zero.mp hrest
      rw [if_pos (by simp [he]), List.filter_cons_of_pos (by simp), hrestf,
        List.any_cons]
      simp [he]

theorem countId_updateColl {α : Type} (item : PEntity α) (now : Nat)
    (coll : List (PEntity α)) (h : countId coll item.id ≤ 1) :
    countId (LocalStorageProvider.updateColl item now coll) item.id = 1 := by
  unfold countId
  rw [show (fun e => e.id == item.id)
        = (fun e : PEntity α => e.id == ({ item with lastModified := now } : PEntity α).id)
      from rfl] at *
  rw [filter_updateColl item now coll h]
  cases coll.any (fun e => e.id == item.id) <;> simp

theorem find?_insertOrReplace {α : Type} (item : PEntity α)
    (coll : List (PEntity α)) :
    (SQLiteSchemeProvider.insertOrReplace item coll).find? (fun e => e.id == item.id)
      = some item := by
  induction coll with
  | nil => simp [SQLiteSchemeProvider.insertOrReplace, List.find?_cons_of_pos]
  | cons e rest ih =>
    unfold SQLiteSchemeProvider.insertOrReplace
    cases he : (e.id == item.id)
    · rw [if_neg (by simp [he]), List.find?_cons_of_neg _ (by simp [he]), ih]
    · rw [if_pos (by simp [he]), List.find?_cons_of_pos _ (by simp)]

/-! ## Helper lemmas: slicing lengths, remaining fromJSON facts -/

theorem length_skip_nonneg {α : Type} (l : List α) (a : Int) (h : 0 ≤ a) :
    (QueryableArray.skip l a).length = l.length - a.toNat := by
  simp only [QueryableArray.skip, QueryableArray.jsSlice]
  rw [if_neg (by omega)]
  simp only [List.length_take, List.length_drop]
  omega

theorem length_take_nonneg {α : Type} (l : List α) (b : Int) (h : 0 ≤ b) :
    (QueryableArray.take l b).length = min b.toNat l.length := by
  simp only [QueryableArray.take, QueryableArray.jsSlice]
  rw [if_neg (by omega), if_neg (by omega)]
  simp only [List.length_take, List.length_drop]
  omega

theorem getVal_fromJSON_not_own {α : Type} (fmts : List (String × Fmt α))
    (json : Obj α) : ∀ (self : Obj α) (k : String), hasOwn self k = false →
    getVal (PersistedEntity.fromJSON fmts self json) k = getVal self k := by
  induction json with
  | nil => intro self k _; rfl
  | cons kv rest ih =>
    intro self k h
    rw [fromJSON_cons, ih _ k (by rw [hasOwn_fromJSONStep]; exact h)]
    by_cases hk : kv.1 = k
    · unfold PersistedEntity.fromJSONStep
      rw [if_neg (by simp [hk, h])]
    · exact getVal_fromJSONStep_ne fmts self kv k hk

theorem findById_update_registered {α : Type} (m : LSModels α) (label : String)
    (item : PEntity α) (now : Nat) (coll : List (PEntity α))
    (hreg : mapGet m label = some coll) :
    LocalStorageProvider.findById
        (LocalStorageProvider.update m label item now) label item.id
      = some (if coll.any (fun e => e.id == item.id) then
                { item with lastModified := now } else item) := by
  unfold LocalStorageProvider.update
  rw [hreg]
  unfold LocalStorageProvider.findById
  rw [mapGet_mapSet_self]
  exact find?_updateColl item now coll

theorem update_registered_eq {α : Type} (m : LSModels α) (label : String)
    (item : PEntity α) (now : Nat) (coll : List (PEntity α))
    (hreg : mapGet m label = some coll) :
    LocalStorageProvider.update m label item now
      = mapSet m label (LocalStorageProvider.updateColl item now coll) := by
  unfold LocalStorageProvider.update
  rw [hreg]

/-! ## Claim C1 -/

/-- C1, counterexample: when the provider's `all` rejects (here with
the error value `"boom"`), `OfflineStorage.all` does not reject: the
`catch` branch resolves the call with an empty sequence, so the claim
"the orchestrator's all(label) also rejects with that error rather
than resolving" is false at this input. -/
theorem all_provider_rejection_counterexample :
    OfflineStorage.all (Except.error "boom") (fun n : Nat => some n) = Except.ok []
    ∧ OfflineStorage.all (Except.error "boom") (fun n : Nat => some n)
        ≠ Except.error "boom" := by
  refine ⟨rfl, ?_⟩
  intro h
  exact Except.noConfusion h

/-- C1, amended: `OfflineStorage.all` catches a provider-level
rejection of `all(label)` and resolves with the empty sequence (the
error is logged, not propagated); when the provider resolves, items
whose parse step yields no entity are skipped and the remaining
entities are returned in order. -/
theorem all_error_degradation {ε ι : Type} (e : ε) (parseIt : ι → Option ι)
    (items : List ι) :
    OfflineStorage.all (Except.error e) parseIt = Except.ok []
    ∧ OfflineStorage.all ((Except.ok items : Except ε (List ι))) parseIt
        = Except.ok (items.filterMap parseIt) := by
  refine ⟨rfl, ?_⟩
  show Except.ok (List.filterMap id (items.map parseIt))
      = (Except.ok (items.filterMap parseIt) : Except ε (List ι))
  rw [List.filterMap_map]
  rfl

/-! ## Claim C2 -/

/-- C2, counterexample: `LocalStorageProvider.update` on a label that
was never registered stores nothing (the `if (model)` guard skips the
write), so a subsequent `findById` returns `undefined` instead of the
stored entity, refuting the claim for the `LocalStorageProvider`. -/
theorem update_unregistered_label_counterexample :
    LocalStorageProvider.update ([] : LSModels Nat) "users"
        { id := "a", created := 0, lastModified := 0, payload := 7 } 5 = []
    ∧ LocalStorageProvider.findById
        (LocalStorageProvider.update ([] : LSModels Nat) "users"
          { id := "a", created := 0, lastModified := 0, payload := 7 } 5)
        "users" "a" = none := by
  exact ⟨rfl, rfl⟩

/-- C2, amended: `LocalStorageProvider.update` stores the item (and a
subsequent `findById` returns it) only when the label's collection is
registered in the provider's `models` map; when the label was never
registered, `update` leaves the provider state unchanged and
`findById` returns `undefined`.  The schema provider
(`SQLLiteSchemeProvider.update`) does create the table on demand:
there `findById` returns the stored item even for a label that never
existed. -/
theorem update_on_demand_amended {α : Type} (m : LSModels α) (label : String)
    (item : PEntity α) (now : Nat) :
    (∀ coll, mapGet m label = some coll →
      LocalStorageProvider.findById
          (LocalStorageProvider.update m label item now) label item.id
        = some (if coll.any (fun e => e.id == item.id) then
                  { item with lastModified := now } else item))
    ∧ (mapGet m label = none →
        LocalStorageProvider.update m label item now = m
        ∧ LocalStorageProvider.findById
            (LocalStorageProvider.update m label item now) label item.id = none)
    ∧ (∀ tables : LSModels α,
        SQLiteSchemeProvider.findById
            (SQLiteSchemeProvider.update tables label item) label item.id
          = some item) := by
  refine ⟨?_, ?_, ?_⟩
  · intro coll hreg
    exact findById_update_registered m label item now coll hreg
  · intro hnone
    have hupd : LocalStorageProvider.update m label item now = m := by
      unfold LocalStorageProvider.update
      rw [hnone]
    refine ⟨hupd, ?_⟩
    rw [hupd]
    unfold LocalStorageProvider.findById
    rw [hnone]
  · intro tables
    unfold SQLiteSchemeProvider.update SQLiteSchemeProvider.findById
    rw [mapGet_mapSet_self]
    exact find?_insertOrReplace item _

/-- Witness for C2's amended theorem: with the label `"users"`
registered (empty collection), updating and then looking the id up
returns the stored item. -/
theorem update_on_demand_amended_witness :
    LocalStorageProvider.findById
        (LocalStorageProvider.update
          ([("users", [])] : LSModels Nat) "users"
          { id := "a", created := 0, lastModified := 0, payload := 7 } 3)
        "users" "a"
      = some { id := "a", created := 0, lastModified := 0, payload := 7 } := by
  have h := (update_on_demand_amended ([("users", [])] : LSModels Nat) "users"
      { id := "a", created := 0, lastModified := 0, payload := 7 } 3).1 [] rfl
  simpa using h

/-! ## Claim C3 -/

/-- C3, counterexample: on a label that was never registered,
`LocalStorageProvider.update` called twice with the same id stores
nothing at all — zero entities, not exactly one — so the claim, as
universally quantified over labels, fails. -/
theorem upsert_unregistered_label_counterexample :
    LocalStorageProvider.update
        (LocalStorageProvider.update ([] : LSModels Nat) "users"
          { id := "a", created := 0, lastModified := 0, payload := 1 } 1)
        "users" { id := "a", created := 0, lastModified := 0, payload := 2 } 2
      = []
    ∧ LocalStorageProvider.findById
        (LocalStorageProvider.update
          (LocalStorageProvider.update ([] : LSModels Nat) "users"
            { id := "a", created := 0, lastModified := 0, payload := 1 } 1)
          "users" { id := "a", created := 0, lastModified := 0, payload := 2 } 2)
        "users" "a" = none := by
  exact ⟨rfl, rfl⟩

/-- C3, amended: provided the label's collection is registered and
initially holds at most one entity with the given id, calling
`LocalStorageProvider.update` twice with the same id but different
payloads leaves exactly one stored entity under that id, holding the
second call's payload, with `lastModified` equal to the second call's
clock value and hence at least the first call's. -/
theorem upsert_twice_same_id {α : Type} (m : LSModels α) (label : String)
    (coll : List (PEntity α)) (item1 item2 : PEntity α) (t1 t2 : Nat)
    (hreg : mapGet m label = some coll)
    (hcount : countId coll item1.id ≤ 1)
    (hid : item2.id = item1.id)
    (hpay : item2.payload ≠ item1.payload)
    (htime : t1 ≤ t2) :
    ∃ coll2,
      mapGet (LocalStorageProvider.update
          (LocalStorageProvider.update m label item1 t1) label item2 t2) label
        = some coll2
      ∧ coll2.filter (fun e => e.id == item1.id) = [{ item2 with lastModified := t2 }]
      ∧ t1 ≤ ({ item2 with lastModified := t2 } : PEntity α).lastModified := by
  have e1 : LocalStorageProvider.update m label item1 t1
      = mapSet m label (LocalStorageProvider.updateColl item1 t1 coll) :=
    update_registered_eq m label item1 t1 coll hreg
  have h1 : mapGet (LocalStorageProvider.update m label item1 t1) label
      = some (LocalStorageProvider.updateColl item1 t1 coll) := by
    rw [e1]
    exact mapGet_mapSet_self m label _
  have e2 : LocalStorageProvider.update
      (LocalStorageProvider.update m label item1 t1) label item2 t2
      = mapSet (LocalStorageProvider.update m label item1 t1) label
          (LocalStorageProvider.updateColl item2 t2
            (LocalStorageProvider.updateColl item1 t1 coll)) :=
    update_registered_eq _ label item2 t2 _ h1
  refine ⟨LocalStorageProvider.updateColl item2 t2
      (LocalStorageProvider.updateColl item1 t1 coll), ?_, ?_, htime⟩
  · rw [e2]
    exact mapGet_mapSet_self _ label _
  · have hc1 : countId (LocalStorageProvider.updateColl item1 t1 coll) item2.id ≤ 1 := by
      rw [hid]
      exact Nat.le_of_eq (countId_updateColl item1 t1 coll hcount)
    have hany : (LocalStorageProvider.updateColl item1 t1 coll).any
        (fun e => e.id == item2.id) = true := by
      rw [hid]
      exact any_updateColl item1 t1 coll
    have hfil := filter_updateColl item2 t2
        (LocalStorageProvider.updateColl item1 t1 coll) hc1
    rw [hany, if_pos rfl] at hfil
    rw [← hid]
    exact hfil

/-- Witness for C3's amended theorem at a registered empty collection
with two updates under the same id. -/
theorem upsert_twice_same_id_witness :
    ∃ coll2,
      mapGet (LocalStorageProvider.update
          (LocalStorageProvider.update ([("users", [])] : LSModels Nat) "users"
            { id := "a", created := 0, lastModified := 0, payload := 1 } 1)
          "users" { id := "a", created := 0, lastModified := 0, payload := 2 } 2) "users"
        = some coll2
      ∧ coll2.filter (fun e => e.id == "a")
          = [{ id := "a", created := 0, lastModified := 2, payload := 2 }]
      ∧ 1 ≤ ({ id := "a", created := 0, lastModified := 2, payload := 2 } : PEntity Nat).lastModified := by
  have h := upsert_twice_same_id ([("users", [])] : LSModels Nat) "users" []
      { id := "a", created := 0, lastModified := 0, payload := 1 }
      { id := "a", created := 0, lastModified := 0, payload := 2 } 1 2
      rfl (by decide) rfl (by decide) (by decide)
  simpa using h

/-! ## Claim C4 -/

/-- C4, counterexample: a negative count does not clamp.  On the
three-element sequence `[1, 2, 3]`, `skip(-1)` returns the last
element `[3]` instead of the full sequence, and `take(-1)` returns all
but the last element `[1, 2]` instead of the empty sequence —
JavaScript `slice` selects relative to the tail. -/
theorem skip_take_negative_counterexample :
    QueryableArray.skip ([1, 2, 3] : List Nat) (-1) = [3]
    ∧ QueryableArray.skip ([1, 2, 3] : List Nat) (-1) ≠ [1, 2, 3]
    ∧ QueryableArray.take ([1, 2, 3] : List Nat) (-1) = [1, 2]
    ∧ QueryableArray.take ([1, 2, 3] : List Nat) (-1) ≠ [] := by
  refine ⟨?_, ?_, ?_, ?_⟩ <;> decide

/-- C4, amended: for non-negative counts the composite law holds —
`seq.skip(a).take(b)` has length `max 0 (min b (seq.length - a))`;
a negative count `n`, however, follows JavaScript `slice` semantics
instead of clamping: `skip(n)` returns the last `min (-n) length`
elements and `take(n)` drops the last `min (-n) length` elements. -/
theorem skip_take_clamped_lengths {α : Type} (l : List α) (a b n : Int) :
    (0 ≤ a → 0 ≤ b →
      ((QueryableArray.take (QueryableArray.skip l a) b).length : Int)
        = max 0 (min b ((l.length : Int) - a)))
    ∧ (n < 0 →
        QueryableArray.skip l n = l.drop (l.length - min (-n).toNat l.length))
    ∧ (n < 0 →
        QueryableArray.take l n = l.take (l.length - min (-n).toNat l.length)) := by
  refine ⟨?_, ?_, ?_⟩
  · intro ha hb
    rw [length_take_nonneg _ _ hb, length_skip_nonneg _ _ ha]
    omega
  · intro hn
    simp only [QueryableArray.skip, QueryableArray.jsSlice]
    rw [if_pos hn]
    rw [List.take_of_length_le (by simp only [List.length_drop]; omega)]
    congr 1
    omega
  · intro hn
    simp only [QueryableArray.take, QueryableArray.jsSlice]
    rw [if_pos hn, if_neg (show ¬ ((0 : Int) < 0) by omega)]
    have h0 : (min (0 : Int) (l.length : Int)) = 0 := by omega
    rw [h0]
    simp only [Int.toNat_zero, List.drop_zero, Int.sub_zero]
    congr 1
    omega

/-- Witness for C4's amended theorem at `l = [10, 20, 30]`, `a = 1`,
`b = 5`, `n = -1`. -/
theorem skip_take_clamped_lengths_witness :
    ((QueryableArray.take (QueryableArray.skip ([10, 20, 30] : List Nat) 1) 5).length : Int)
      = max 0 (min 5 ((([10, 20, 30] : List Nat).length : Int) - 1)) :=
  (skip_take_clamped_lengths ([10, 20, 30] : List Nat) 1 5 (-1)).1
    (by decide) (by decide)

/-! ## Claim C5 -/

/-- C5, counterexample: a field with a registered custom formatter
does not keep its previous value when the input holds `undefined` for
it.  With the identity formatter on `"f"`, an entity whose field
`"f"` holds `0` and an input `{f: undefined}`, `fromJSON` assigns
`parse(undefined) = undefined`, clobbering the previous value. -/
theorem fromJSON_formatter_undefined_counterexample :
    getVal (PersistedEntity.fromJSON [("f", natIdFmt)]
        [("f", some 0)] [("f", none)]) "f" = none
    ∧ getVal ([("f", some (0 : Nat))] : Obj Nat) "f" = some 0 := by
  exact ⟨rfl, rfl⟩

/-- C5, amended: fields absent from the input keep their previous
values; a field present with value `undefined` keeps its previous
value only when no custom formatter is registered for it; a field with
a registered formatter that is present in the input — even with value
`undefined` — is assigned the formatter's `parse` of the input
value. -/
theorem fromJSON_partial_update {α : Type} (fmts : List (String × Fmt α))
    (self json : Obj α) (k : String) :
    (hasOwn json k = false →
      getVal (PersistedEntity.fromJSON fmts self json) k = getVal self k)
    ∧ ((json.map Prod.fst).Nodup → lookupFmt fmts k = none →
        getProp json k = some none →
        getVal (PersistedEntity.fromJSON fmts self json) k = getVal self k)
    ∧ (∀ f v, (json.map Prod.fst).Nodup → lookupFmt fmts k = some f →
        getProp json k = some v → hasOwn self k = true →
        getVal (PersistedEntity.fromJSON fmts self json) k = f.parse v) := by
  refine ⟨?_, ?_, ?_⟩
  · exact getVal_fromJSON_not_mem fmts json self k
  · intro hnd hf hv
    cases hself : hasOwn self k
    · exact getVal_fromJSON_not_own fmts json self k hself
    · rw [getVal_fromJSON_of_getProp fmts json self k none hnd hv hself]
      rw [hf]
  · intro f v hnd hf hv hown
    rw [getVal_fromJSON_of_getProp fmts json self k v hnd hv hown]
    rw [hf]

/-- Witness for C5's amended theorem: a key absent from the input is
left untouched. -/
theorem fromJSON_partial_update_witness :
    getVal (PersistedEntity.fromJSON ([] : List (String × Fmt Nat))
        [("f", some 5)] [("g", some 1)]) "f"
      = getVal ([("f", some (5 : Nat))] : Obj Nat) "f" :=
  (fromJSON_partial_update [] [("f", some 5)] [("g", some 1)] "f").1 rfl

/-! ## Claim C6 -/

/-- C6, counterexample: the round trip is not the identity for an
entity with a field explicitly holding `undefined`.  With
`e = {id: 1, x: undefined}` and a fresh instance whose constructor
default is `{id: 0, x: 5}`, `fromJSON(toJSON(e))` skips the
`undefined`-valued `x`, so the reconstructed entity keeps the fresh
default `5` instead of `e`'s `undefined`. -/
theorem roundTrip_undefined_field_counterexample :
    getVal (PersistedEntity.fromJSON ([] : List (String × Fmt Nat))
        [("id", some 0), ("x", some 5)]
        (PersistedEntity.toJSON [] [("id", some 1), ("x", none)])) "x" = some 5
    ∧ getVal ([("id", some 1), ("x", none)] : Obj Nat) "x" = none
    ∧ some 5 ≠ (none : Option Nat) := by
  refine ⟨rfl, rfl, by simp⟩

/-- C6, amended: for an entity with no custom formatters, whose own
fields all hold defined (non-`undefined`) values, populating a fresh
instance with the same own-property keys via `fromJSON(toJSON(e))`
reproduces every field of `e`; a field of `e` holding `undefined` is
instead left at the fresh instance's default. -/
theorem roundTrip_defined_fields {α : Type} (self fresh : Obj α)
    (hnd : (self.map Prod.fst).Nodup)
    (hkeys : ∀ k, hasOwn fresh k = hasOwn self k)
    (hdef : ∀ kv ∈ self, kv.2.isSome = true) :
    ∀ k, getVal (PersistedEntity.fromJSON [] fresh
        (PersistedEntity.toJSON [] self)) k = getVal self k := by
  intro k
  have htj : PersistedEntity.toJSON ([] : List (String × Fmt α)) self = self := rfl
  rw [htj]
  cases hself : hasOwn self k
  · rw [getVal_fromJSON_not_mem [] self fresh k hself]
    unfold getVal
    rw [getProp_eq_none_of_not_own fresh k (by rw [hkeys]; exact hself),
      getProp_eq_none_of_not_own self k hself]
  · rw [hasOwn, List.any_eq_true] at hself
    obtain ⟨x, hmem, hx⟩ := hself
    have hfs : (self.find? (fun p => p.1 == k)).isSome := by
      rw [List.find?_isSome]
      exact ⟨x, hmem, hx⟩
    obtain ⟨entry, hentry⟩ := Option.isSome_iff_exists.mp hfs
    have hmem2 : entry ∈ self := List.mem_of_find?_eq_some hentry
    obtain ⟨a, ha⟩ := Option.isSome_iff_exists.mp (hdef entry hmem2)
    have hprop : getProp self k = some entry.2 := by
      rw [getProp, hentry]
      rfl
    have hown : hasOwn self k = true := by
      rw [hasOwn, List.any_eq_true]
      exact ⟨x, hmem, hx⟩
    rw [getVal_fromJSON_of_getProp [] self fresh k entry.2 hnd hprop
      (by rw [hkeys]; exact hown)]
    rw [ha]
    show some a = getVal self k
    rw [getVal, hprop, ha]
    rfl

/-- Witness for C6's amended theorem on a concrete entity with all
fields defined. -/
theorem roundTrip_defined_fields_witness :
    getVal (PersistedEntity.fromJSON ([] : List (String × Fmt Nat))
        [("id", some 0), ("x", some 7)]
        (PersistedEntity.toJSON [] [("id", some 1), ("x", some 5)])) "x"
      = getVal ([("id", some 1), ("x", some 5)] : Obj Nat) "x" :=
  roundTrip_defined_fields [("id", some 1), ("x", some 5)]
    [("id", some 0), ("x", some 7)] (by decide) (fun _ => rfl) (by decide) "x"

/-! ## Claim C7 -/

/-- C7: `single(predicate)` throws when the number of matching
elements is 0 or at least 2, and returns the element when exactly one
matches; `singleOrDefault(predicate)` returns `undefined` without
throwing in the 0- and 2-or-more-match cases, and returns the element
when exactly one matches. -/
theorem single_cardinality {α : Type} (l : List α) (p : α → Bool) :
    (((l.filter p).length = 0 ∨ 2 ≤ (l.filter p).length) →
      (∃ msg, QueryableArray.single l p = Except.error msg)
      ∧ QueryableArray.singleOrDefault l p = none)
    ∧ (∀ x, l.filter p = [x] →
        QueryableArray.single l p = Except.ok x
        ∧ QueryableArray.singleOrDefault l p = some x) := by
  constructor
  · intro h
    have hne : ¬ (l.filter p).length = 1 := by omega
    constructor
    · exact ⟨"Sequence contains more than one matching element",
        by simp only [QueryableArray.single, dif_neg hne]⟩
    · simp only [QueryableArray.singleOrDefault, if_neg hne]
  · intro x hx
    have h1 : (l.filter p).length = 1 := by rw [hx]; rfl
    constructor
    · simp only [QueryableArray.single]
      rw [dif_pos h1]
      congr 1
      have hg := List.get_of_eq hx ⟨0, by omega⟩
      rw [hg]
      rfl
    · simp only [QueryableArray.singleOrDefault, hx]
      rfl

/-- Witness for C7 at `[1, 2, 3]` with the predicate matching exactly
the element `2`. -/
theorem single_cardinality_witness :
    QueryableArray.single [1, 2, 3] (fun n => n == 2) = Except.ok 2
    ∧ QueryableArray.singleOrDefault [1, 2, 3] (fun n => n == 2) = some 2 :=
  (single_cardinality [1, 2, 3] (fun n => n == 2)).2 2 (by decide)

/-! ## Claim C8 -/

/-- C8: with an `onChange` listener assigned, `insert("x", item)`
delivers exactly one event `{label: "x", origin: insert, item}`; a
subsequent insert with the silent flag set delivers no event while
still performing the same provider-update storage effect. -/
theorem insert_change_events {σ ι : Type} (pupdate : σ → String → ι → σ)
    (st : σ) (item : ι) :
    (OfflineStorage.insert pupdate true st "x" item false).2.1
        = [{ label := "x", origin := Origin.insert, item := some item }]
    ∧ (OfflineStorage.insert pupdate true st "x" item true).2.1 = []
    ∧ (OfflineStorage.insert pupdate true st "x" item true).1 = pupdate st "x" item
    ∧ (OfflineStorage.insert pupdate true st "x" item false).1 = pupdate st "x" item := by
  exact ⟨rfl, rfl, rfl, rfl⟩

/-! ## Claim C9 -/

/-- C9: the orchestrator's `insert` and `update` have the identical
effect on provider state — both delegate to the provider's `update` —
differing only in the emitted event's origin (`insert` vs `update`),
in `insert`'s silent suppression, and in `insert` returning the item;
consequently (instantiating the provider with the
`LocalStorageProvider` model), inserting an item whose id already
exists in a registered collection silently replaces the stored entity
rather than failing. -/
theorem insert_update_same_effect {σ ι : Type} (pupdate : σ → String → ι → σ)
    (hasL silent : Bool) (st : σ) (label : String) (item : ι) :
    ((OfflineStorage.insert pupdate hasL st label item silent).1
        = (OfflineStorage.update pupdate hasL st label item).1
      ∧ (OfflineStorage.insert pupdate hasL st label item silent).2.2 = item
      ∧ (OfflineStorage.insert pupdate hasL st label item silent).2.1
          = (if hasL && !silent then
              [{ label := label, origin := Origin.insert, item := some item }]
            else [])
      ∧ (OfflineStorage.update pupdate hasL st label item).2
          = (if hasL then
              [{ label := label, origin := Origin.update, item := some item }]
            else []))
    ∧ (∀ (m : LSModels Nat) (lab : String) (it : PEntity Nat)
          (coll : List (PEntity Nat)) (now : Nat),
        mapGet m lab = some coll →
        coll.any (fun e => e.id == it.id) = true →
        LocalStorageProvider.findById
            ((OfflineStorage.insert
                (fun s l i => LocalStorageProvider.update s l i now)
                hasL m lab it silent).1) lab it.id
          = some { it with lastModified := now }) := by
  constructor
  · exact ⟨rfl, rfl, rfl, rfl⟩
  · intro m lab it coll now hreg hany
    show LocalStorageProvider.findById
        (LocalStorageProvider.update m lab it now) lab it.id = _
    rw [findById_update_registered m lab it now coll hreg, hany]
    rfl

/-- Witness for C9: inserting id `"a"` over an existing entity with
the same id replaces it (payload `2`, refreshed `lastModified`). -/
theorem insert_update_same_effect_witness :
    LocalStorageProvider.findById
        ((OfflineStorage.insert
            (fun s l i => LocalStorageProvider.update s l i 9) true
            ([("x", [{ id := "a", created := 0, lastModified := 0, payload := 1 }])]
              : LSModels Nat)
            "x" { id := "a", created := 0, lastModified := 0, payload := 2 } false).1)
        "x" "a"
      = some { id := "a", created := 0, lastModified := 9, payload := 2 } := by
  have h := (insert_update_same_effect
      (fun s l i => LocalStorageProvider.update s l i 9) true false
      ([("x", [{ id := "a", created := 0, lastModified := 0, payload := 1 }])]
        : LSModels Nat)
      "x" { id := "a", created := 0, lastModified := 0, payload := 2 }).2
      ([("x", [{ id := "a", created := 0, lastModified := 0, payload := 1 }])])
      "x" { id := "a", created := 0, lastModified := 0, payload := 2 }
      ([{ id := "a", created := 0, lastModified := 0, payload := 1 }]) 9
      rfl (by decide)
  simpa using h

/-! ## Claim C10 -/

/-- C10: `orderBy` (and `orderByDescending`) sort the receiver in
place before returning the new sequence: the receiver's state after
the call equals the returned sequence's contents, is sorted by the
selected key (ascending for `orderBy`, descending for
`orderByDescending`), and is a permutation of the original elements;
`where`, `select`, `skip` and `take` leave the receiver's elements
and order unchanged. -/
theorem orderBy_mutates_receiver {α K β : Type} [LinearOrder K] (s : List α)
    (key : α → K) (p : α → Bool) (f : α → β) (n : Int) :
    (QueryableArray.orderByFx s key).1 = (QueryableArray.orderByFx s key).2
    ∧ List.Sorted (fun a b => key a ≤ key b) (QueryableArray.orderByFx s key).1
    ∧ (QueryableArray.orderByFx s key).1.Perm s
    ∧ List.Sorted (fun a b => key b ≤ key a)
        (QueryableArray.orderByDescendingFx s key).1
    ∧ (QueryableArray.orderByDescendingFx s key).1.Perm s
    ∧ (QueryableArray.whereFx s p).1 = s
    ∧ (QueryableArray.selectFx s f).1 = s
    ∧ (QueryableArray.skipFx s n).1 = s
    ∧ (QueryableArray.takeFx s n).1 = s := by
  refine ⟨rfl, ?_, ?_, ?_, ?_, rfl, rfl, rfl, rfl⟩
  · exact List.Pairwise.imp (fun hab => by simpa using hab)
      (List.sorted_mergeSort
        (fun a b c hab hbc => by
          simp only [decide_eq_true_eq] at *
          exact le_trans hab hbc)
        (fun a b => by simpa using le_total (key a) (key b)) s)
  · exact List.mergeSort_perm s _
  · exact List.Pairwise.imp (fun hab => by simpa using hab)
      (List.sorted_mergeSort
        (fun a b c hab hbc => by
          simp only [decide_eq_true_eq] at *
          exact le_trans hbc hab)
        (fun a b => by simpa using le_total (key b) (key a)) s)
  · exact List.mergeSort_perm s _
